import Mathlib

/-!
Verification development for the URL-promotion exporter (`integrated.py`).

Strings from the Python source are modelled as `List Char`.  Each regex
substitution used by the source is translated into an explicit character-list
function mirroring the Python `re` semantics (anchors `^`/`$`, greedy classes,
global scanning) on the inputs the program handles.  Fallible operations
(`csv` header read) are modelled with `Except`.  The persisted CSV file is
modelled at the record level (a list of rows, each a list of fields) as the
default-dialect reader of `load_processed_urls` recovers it: the program
writes with `csv.writer(quoting=QUOTE_ALL, escapechar='\\',
doublequote=False)`, which prefixes every backslash (and would prefix every
quote) in a field with a backslash, while the reader uses the default
dialect with no escape character and therefore keeps those prefixes as
literal characters — so a stored field comes back with every backslash
doubled (`csvStoredField`).  Every field the program writes is produced by
`clean_text`, hence contains neither the quote character nor a control
character, so no quote or record-framing case arises in the written data.
-/

/-- Coerce a Lean string literal to the `List Char` representation. -/
def str (s : String) : List Char := s.data

/- ------------------------------------------------------------------
   `clean_text` (integrated.py lines 134-144)
   ------------------------------------------------------------------ -/

/-- Python whitespace as matched by `str.strip()` / `\s` on the ASCII range
(the only range that can survive the sanitizer's ASCII filter). -/
def isPySpace (c : Char) : Bool :=
  c == ' ' || c == '\t' || c == '\n' || c == '\r' || c == '\x0b' || c == '\x0c'

/-- Python `str.strip()`: drop whitespace from both ends. -/
def pyStrip (s : List Char) : List Char :=
  ((s.dropWhile isPySpace).reverse.dropWhile isPySpace).reverse

/-- Single-character ANSI escape tail: the class `[@-Z\\-_]`,
i.e. 0x40-0x5A together with 0x5C-0x5F. -/
def isAnsiSingle (c : Char) : Bool :=
  (0x40 ≤ c.toNat && c.toNat ≤ 0x5A) || (0x5C ≤ c.toNat && c.toNat ≤ 0x5F)

/-- CSI parameter bytes `[0-?]` (0x30-0x3F). -/
def isCsiParam (c : Char) : Bool := 0x30 ≤ c.toNat && c.toNat ≤ 0x3F

/-- CSI intermediate bytes (the class from 0x20 to 0x2F). -/
def isCsiInter (c : Char) : Bool := 0x20 ≤ c.toNat && c.toNat ≤ 0x2F

/-- CSI final bytes `[@-~]` (0x40-0x7E). -/
def isCsiFinal (c : Char) : Bool := 0x40 ≤ c.toNat && c.toNat ≤ 0x7E

/-- Fuelled scanner for the ANSI-escape substitution of line 138: an ESC
followed either by one byte of `isAnsiSingle`, or by a CSI sequence
`[` + parameter bytes + intermediate bytes + one final byte, is removed.
The character classes of the CSI alternative are pairwise disjoint from the
final-byte class, so the greedy parse is deterministic and no backtracking can
occur.  The fuel only bounds the recursion; `removeAnsi` supplies enough of
it that the fuel-exhausted branch is unreachable. -/
def removeAnsiF : Nat → List Char → List Char
  | 0, s => s
  | _ + 1, [] => []
  | n + 1, c :: rest =>
    if c = '\x1b' then
      match rest with
      | c2 :: rest2 =>
        if isAnsiSingle c2 then removeAnsiF n rest2
        else if c2 = '[' then
          let r2 := (rest2.dropWhile isCsiParam).dropWhile isCsiInter
          match r2 with
          | f :: r3 => if isCsiFinal f then removeAnsiF n r3 else c :: removeAnsiF n rest
          | [] => c :: removeAnsiF n rest
        else c :: removeAnsiF n rest
      | [] => [c]
    else c :: removeAnsiF n rest

/-- Remove ANSI escape sequences (line 138 of the source). -/
def removeAnsi (s : List Char) : List Char := removeAnsiF s.length s

/-- The step `text.encode('ascii', 'ignore').decode('ascii')`: keep code points below
0x80 (line 140). -/
def asciiOnly (s : List Char) : List Char := s.filter (fun c => c.toNat ≤ 0x7f)

/-- The step `re.sub(r'[\x00-\x1F\x7F]', '', text)`: drop control characters
(line 141). -/
def removeCtrl (s : List Char) : List Char :=
  s.filter (fun c => !(c.toNat ≤ 0x1f || c.toNat == 0x7f))

/-- The step `text.replace('"', "'")` (line 142). -/
def replaceQuotes (s : List Char) : List Char :=
  s.map (fun c => if c = '"' then Char.ofNat 39 else c)

/-- The step `re.sub(r'\s+', ' ', text)` (line 143): collapse each maximal run of
whitespace to a single space. -/
def collapseWS : List Char → List Char
  | [] => []
  | [c] => if isPySpace c then [' '] else [c]
  | c1 :: c2 :: rest =>
    if isPySpace c1 && isPySpace c2 then collapseWS (c2 :: rest)
    else (if isPySpace c1 then ' ' else c1) :: collapseWS (c2 :: rest)

/-- The sanitizer `clean_text` with the Unicode compatibility decomposition (line 139) left
as a parameter: NFKD is the identity on the ASCII inputs this development
ever evaluates, and every theorem quantifying over all inputs below is proved
for an arbitrary decomposition function, so no behaviour of the real NFKD is
assumed. -/
def cleanTextWith (nf : List Char → List Char) (t : List Char) : List Char :=
  if t = [] then []
  else collapseWS (pyStrip (replaceQuotes (removeCtrl (asciiOnly (nf (removeAnsi t))))))

/-- The sanitizer `clean_text` (lines 134-144), with NFKD instantiated to the identity. -/
def clean_text (t : List Char) : List Char := cleanTextWith (fun s => s) t

/- ------------------------------------------------------------------
   `normalize_url` (integrated.py lines 146-158)
   ------------------------------------------------------------------ -/

/-- Does a segment (a maximal `&`-free run following `?` or `&`) match the
group of `re.sub(r'[?&](utm_[^&]+|fbclid|gclid|mc_[^&]+)=[^&]*', '', url)`?
For the `utm_`/`mc_` alternatives the `[^&]+` is at least one character and
must be followed by `=`, so the segment needs an `=` strictly after that
first character; the trailing `[^&]*` then always extends to the end of the
segment. -/
def matchTracking (seg : List Char) : Bool :=
  ((str "utm_").isPrefixOf seg && (seg.drop 5).contains '=')
  || (str "fbclid=").isPrefixOf seg
  || (str "gclid=").isPrefixOf seg
  || ((str "mc_").isPrefixOf seg && (seg.drop 4).contains '=')

/-- Fuelled global scan for the tracking-parameter substitution (line 150).
A match consumes the `?`/`&` and the whole segment; scanning resumes at the
next `&` (or the end), exactly where the regex engine resumes. -/
def stripTrackingF : Nat → List Char → List Char
  | 0, s => s
  | _ + 1, [] => []
  | n + 1, c :: rest =>
    if (c == '?' || c == '&') && matchTracking (rest.takeWhile (· != '&')) then
      stripTrackingF n (rest.dropWhile (· != '&'))
    else c :: stripTrackingF n rest

/-- The step `re.sub(r'[?&](utm_[^&]+|fbclid|gclid|mc_[^&]+)=[^&]*', '', url)`. -/
def stripTracking (s : List Char) : List Char := stripTrackingF s.length s

/-- Fuelled global scan for `re.sub(r'[?&]sid=[^&]*', '', url)` (line 151). -/
def stripSidF : Nat → List Char → List Char
  | 0, s => s
  | _ + 1, [] => []
  | n + 1, c :: rest =>
    if (c == '?' || c == '&') && (str "sid=").isPrefixOf rest then
      stripSidF n (rest.dropWhile (· != '&'))
    else c :: stripSidF n rest

/-- The step `re.sub(r'[?&]sid=[^&]*', '', url)`. -/
def stripSid (s : List Char) : List Char := stripSidF s.length s

/-- Drop everything from the first occurrence of the two-character sequence
`/#` to the end of the list. -/
def dropFromSlashHash : List Char → List Char
  | c1 :: c2 :: rest =>
    if c1 = '/' ∧ c2 = '#' then []
    else c1 :: dropFromSlashHash (c2 :: rest)
  | s => s

/-- Split a list after its last newline: `splitNL s = (pre, post)` with
`s = pre ++ post`, `post` newline-free and `pre` empty or ending in `'\n'`. -/
def splitNL : List Char → List Char × List Char
  | [] => ([], [])
  | c :: rest =>
    let pq := splitNL rest
    if pq.1 = [] then
      if c = '\n' then (['\n'], rest) else ([], c :: rest)
    else (c :: pq.1, pq.2)

/-- Does the list end with a newline? -/
def endsNL : List Char → Bool
  | [] => false
  | [c] => c == '\n'
  | _ :: c :: rest => endsNL (c :: rest)

/-- The step `re.sub(r'/#.*$', '', url)` (line 152).  In Python's `re`, `.` does not
match `'\n'` and `$` matches at the end of the string or just before a final
newline, so the substitution removes the text from the first `/#` that is
followed by no newline (a final newline excepted) to the end, keeping that
final newline. -/
def stripFragment (s : List Char) : List Char :=
  let core := if endsNL s then s.dropLast else s
  let tl : List Char := if endsNL s then ['\n'] else []
  let pq := splitNL core
  pq.1 ++ dropFromSlashHash pq.2 ++ tl

/-- Holds (as `true`) when the two-character sequence `/#` occurs nowhere in the list. -/
def noSlashHash : List Char → Bool
  | c1 :: c2 :: rest => !(c1 == '/' && c2 == '#') && noSlashHash (c2 :: rest)
  | _ => true

/-- The step `re.sub(r'^http://', 'https://', url)` (line 153): anchored,
case-sensitive prefix rewrite. -/
def httpToHttps (s : List Char) : List Char :=
  if (str "http://").isPrefixOf s then str "https://" ++ s.drop 7 else s

/-- The step `re.sub(r'^https://www\.', 'https://', url)` (line 154). -/
def stripWwwDot (s : List Char) : List Char :=
  if (str "https://www.").isPrefixOf s then str "https://" ++ s.drop 12 else s

/-- The step `re.sub(pat + r'$', '', url)` for a literal `pat`: remove a trailing
`pat`, where `$` also matches just before a final newline. -/
def stripSuffixDollar (pat : List Char) (s : List Char) : List Char :=
  if pat.isSuffixOf s then s.take (s.length - pat.length)
  else if (pat ++ ['\n']).isSuffixOf s then
    s.take (s.length - pat.length - 1) ++ ['\n']
  else s

/-- Python `str.lower()` restricted to ASCII, the only range the program's
URLs exercise. -/
def asciiLower (s : List Char) : List Char :=
  s.map (fun c => if 'A' ≤ c ∧ c ≤ 'Z' then Char.ofNat (c.toNat + 32) else c)

/-- The substitution pipeline of `normalize_url` (lines 150-158), applied to
a non-empty URL. -/
def normalizeUrlSteps (u : List Char) : List Char :=
  pyStrip (asciiLower
    (stripSuffixDollar ['?']
      (stripSuffixDollar ['/']
        (stripSuffixDollar ['/', '?']
          (stripWwwDot (httpToHttps (stripFragment (stripSid (stripTracking u)))))))))

/-- The normalizer `normalize_url` (lines 146-158) on a present (non-`None`) argument:
a falsy (empty) URL is returned unchanged. -/
def normalizeUrl (u : List Char) : List Char :=
  if u = [] then u else normalizeUrlSteps u

/-- The normalizer `normalize_url` including the `None` case: `if not url: return url`
returns the argument itself, so `None` maps to `None`. -/
def normalize_url_opt : Option (List Char) → Option (List Char)
  | none => none
  | some u => some (normalizeUrl u)

/- ------------------------------------------------------------------
   Worker result classification (`OllamaWorkerPool._process_url`,
   integrated.py lines 56-77)
   ------------------------------------------------------------------ -/

/-- Substring test: Python `pat in s`. -/
def hasSubstr (pat : List Char) (s : List Char) : Bool :=
  s.tails.any (fun t => pat.isPrefixOf t)

/-- The Failed marker `"Error"`. -/
def errStr : List Char := str "Error"

/-- The veto marker `"Reject:"`. -/
def rejStr : List Char := str "Reject:"

/-- The worker body `_process_url` on the path where the external command exits successfully
(line 70-71): `promotion = clean_text(result.stdout.strip())`, then
`return promotion if promotion and "Error" not in promotion else "Error"`. -/
def process_url_success (stdout : List Char) : List Char :=
  let promotion := clean_text (pyStrip stdout)
  if promotion ≠ [] ∧ hasSubstr errStr promotion = false then promotion else errStr

/- ------------------------------------------------------------------
   Ledger and export (`load_processed_urls`, `export_urls_to_csv`,
   integrated.py lines 220-289)
   ------------------------------------------------------------------ -/

/-- A persisted CSV file, at the record level: a list of rows, each a list of
fields. -/
abbrev FileRecs := List (List (List Char))

/-- The key contributed by one data row: `normalize_url(row[1])` when the
row has at least two fields (lines 227-229). -/
def rowKey : List (List Char) → Option (List Char)
  | _ :: u :: _ => some (normalizeUrl u)
  | _ => none

/-- The ledger loader `load_processed_urls` (lines 220-232).  `none` models an absent file
(`FileNotFoundError` is caught, empty ledger).  A present file with no rows
at all makes the unconditional header skip `next(reader)` raise an uncaught
`StopIteration`, modelled as `Except.error ()`.  Otherwise the header row is
skipped and each remaining row of width at least two contributes
`normalize_url(row[1])`.  The Python `set` is modelled as a list used only
through membership. -/
def load_processed_urls : Option FileRecs → Except Unit (List (List Char))
  | none => .ok []
  | some [] => .error ()
  | some (_ :: rows) => .ok (rows.filterMap rowKey)

/-- In-memory state of the collection loop of `export_urls_to_csv`:
the ledger (`processed_urls`), the data rows appended so far (each one
flushed as soon as it is written), and `new_urls_count`. -/
structure CollectSt where
  ledger : List (List Char)
  rows : FileRecs
  newCount : Nat
deriving DecidableEq

/-- One iteration of the `as_completed` loop (lines 263-286): skip outcomes
whose URL normalizes to the empty key; a promotion equal to `"Error"` only
marks the key; a promotion starting with `"Reject:"` only marks the key;
otherwise append the row `[promotion, clean_text url]` and mark the key. -/
def collectOne (st : CollectSt) (url promo : List Char) : CollectSt :=
  let normalized := normalizeUrl url
  if normalized = [] then st
  else if promo = errStr then ⟨normalized :: st.ledger, st.rows, st.newCount⟩
  else
    let clean_url := clean_text url
    if rejStr.isPrefixOf promo then ⟨normalized :: st.ledger, st.rows, st.newCount⟩
    else ⟨normalized :: st.ledger, st.rows ++ [[promo, clean_url]], st.newCount + 1⟩

/-- Result of one `export_urls_to_csv` call. -/
structure ExportRes where
  dispatched : List (List Char)
  ledger : List (List Char)
  rows : FileRecs
  newCount : Nat
  fileAfter : Option FileRecs
deriving DecidableEq

/-- The header row `['Promotion', 'URL']` (line 251), written only when the
file is newly created. -/
def headerRow : List (List Char) := [str "Promotion", str "URL"]

/-- A written field as the next run's reader recovers it.  The writer
(lines 243-248: `QUOTE_ALL`, `escapechar='\\'`, `doublequote=False`)
prefixes every occurrence of the escape character and of the quote
character in the field data with a backslash; `load_processed_urls` reads
with the default dialect (no escape character), so inside the quoted field
those prefixes are read back as literal characters.  On the fields this
program writes — `clean_text` output, hence quote-free and newline-free —
the write/read composition therefore doubles every backslash and changes
nothing else. -/
def csvStoredField (f : List Char) : List Char :=
  f.flatMap (fun c => if c = '\\' ∨ c = '"' then ['\\', c] else [c])

/-- The dispatch filter of lines 254-261: every URL of the batch whose
normalized key is not in the ledger loaded up front is submitted to the
executor (duplicates included; the set is not consulted again while the
dict comprehension builds). -/
def dispatchList (processed : List (List Char)) (urls : List (List Char)) :
    List (List Char) :=
  urls.filter (fun u => decide (normalizeUrl u ∉ processed))

/-- The whole `as_completed` collection loop, folded over the dispatched
URLs in completion order. -/
def collectAll (outcomeOf : List Char → List Char) (processed : List (List Char))
    (d : List (List Char)) : CollectSt :=
  d.foldl (fun st u => collectOne st u (outcomeOf u)) ⟨processed, [], 0⟩

/-- The records present in the open file before any new row is appended:
a newly created file receives the header row (lines 250-251). -/
def baseRecs : Option FileRecs → FileRecs
  | none => [headerRow]
  | some recs => recs

/-- The orchestrator `export_urls_to_csv` (lines 234-289), parametrised by the file contents
and by the outcome each dispatched URL eventually completes with.  The
dispatch filter consults only the ledger loaded up front; the completion
order of `as_completed` is nondeterministic, modelled by folding in the
order of the (arbitrary) input list. -/
def export_urls_to_csv (file : Option FileRecs) (urls : List (List Char))
    (outcomeOf : List Char → List Char) : Except Unit ExportRes :=
  (load_processed_urls file).map fun processed =>
    ⟨dispatchList processed urls,
     (collectAll outcomeOf processed (dispatchList processed urls)).ledger,
     (collectAll outcomeOf processed (dispatchList processed urls)).rows,
     (collectAll outcomeOf processed (dispatchList processed urls)).newCount,
     some (baseRecs file
       ++ (collectAll outcomeOf processed (dispatchList processed urls)).rows.map
            (List.map csvStoredField))⟩

/-- The dispatched list of an export result (`[]` when the export aborted). -/
def dispatchedOf : Except Unit ExportRes → List (List Char)
  | .ok r => r.dispatched
  | .error _ => []

/-- The new-row counter of an export result. -/
def newCountOf : Except Unit ExportRes → Nat
  | .ok r => r.newCount
  | .error _ => 0

/-- The resulting file contents of an export result. -/
def fileAfterOf : Except Unit ExportRes → Option FileRecs
  | .ok r => r.fileAfter
  | .error _ => none

/- ------------------------------------------------------------------
   Worker pool transition system (`OllamaWorkerPool`, lines 16-89)
   ------------------------------------------------------------------ -/

/-- Pool state: the shared FIFO task queue and, for each host (one worker
thread per entry of `hosts`, started by `start`, lines 24-33), the task that
host's worker is currently processing, if any.  A worker's loop (lines
35-54) takes one task, processes it to completion, and only then returns to
`take`, so its occupancy is a single `Option`. -/
structure PoolState where
  queued : List Nat
  workers : List (Option Nat)

/-- Interleaving semantics of the pool: a producer enqueues a task
(`add_task`, line 79-81); an idle worker dequeues the head task
(`task_queue.get`, line 39); a busy worker finishes its task and becomes
idle again (end of the loop body, line 52). -/
inductive PoolStep : PoolState → PoolState → Prop where
  | submit (s : PoolState) (t : Nat) :
      PoolStep s ⟨s.queued ++ [t], s.workers⟩
  | take (s : PoolState) (i t : Nat) (rest : List Nat)
      (hw : s.workers.get? i = some none) (hq : s.queued = t :: rest) :
      PoolStep s ⟨rest, s.workers.set i (some t)⟩
  | finish (s : PoolState) (i t : Nat)
      (hw : s.workers.get? i = some (some t)) :
      PoolStep s ⟨s.queued, s.workers.set i none⟩

/-- Initial state: all submitted tasks queued, every worker idle. -/
def initState (numHosts : Nat) (tasks : List Nat) : PoolState :=
  ⟨tasks, List.replicate numHosts none⟩

/-- Reachability along pool steps. -/
def poolReach (numHosts : Nat) (tasks : List Nat) (s : PoolState) : Prop :=
  Relation.ReflTransGen PoolStep (initState numHosts tasks) s

/-- Number of tasks currently in flight. -/
def inFlight (s : PoolState) : Nat := (s.workers.filterMap id).length

/-- Number of tasks in flight at host `i`. -/
def inFlightAt (s : PoolState) (i : Nat) : Nat :=
  match s.workers.get? i with
  | some (some _) => 1
  | _ => 0

/-- Equality of `Except` values is decidable componentwise. -/
instance {ε α : Type} [DecidableEq ε] [DecidableEq α] : DecidableEq (Except ε α) := fun a b =>
  match a, b with
  | .error e1, .error e2 =>
    if h : e1 = e2 then isTrue (by rw [h]) else isFalse (by simp [h])
  | .ok a1, .ok a2 =>
    if h : a1 = a2 then isTrue (by rw [h]) else isFalse (by simp [h])
  | .error _, .ok _ => isFalse (by simp)
  | .ok _, .error _ => isFalse (by simp)

/- ------------------------------------------------------------------
   Helper lemmas: the sanitizer
   ------------------------------------------------------------------ -/

lemma mem_removeCtrl_asciiOnly {s : List Char} {c : Char}
    (h : c ∈ removeCtrl (asciiOnly s)) : 0x20 ≤ c.toNat ∧ c.toNat ≤ 0x7e := by
  simp only [removeCtrl, asciiOnly, List.mem_filter, Bool.not_eq_true', decide_eq_true_eq,
    Bool.or_eq_false_iff, decide_eq_false_iff_not, Nat.not_le, beq_eq_false_iff_ne] at h
  obtain ⟨⟨-, h1⟩, h2, h3⟩ := h
  omega

lemma mem_replaceQuotes_good {s : List Char} {c : Char}
    (h : c ∈ replaceQuotes (removeCtrl (asciiOnly s))) :
    (0x20 ≤ c.toNat ∧ c.toNat ≤ 0x7e) ∧ c ≠ '"' := by
  simp only [replaceQuotes, List.mem_map] at h
  obtain ⟨d, hd, hc⟩ := h
  have hgood := mem_removeCtrl_asciiOnly hd
  by_cases hq : d = '"'
  · rw [if_pos hq] at hc
    subst hc
    exact ⟨by decide, by decide⟩
  · rw [if_neg hq] at hc
    subst hc
    exact ⟨hgood, hq⟩

lemma mem_pyStrip {s : List Char} {c : Char} (h : c ∈ pyStrip s) : c ∈ s := by
  unfold pyStrip at h
  rw [List.mem_reverse] at h
  have h2 := (List.dropWhile_sublist isPySpace).subset h
  rw [List.mem_reverse] at h2
  exact (List.dropWhile_sublist isPySpace).subset h2

lemma mem_collapseWS : ∀ (s : List Char) {c : Char}, c ∈ collapseWS s → c = ' ' ∨ c ∈ s := by
  intro s
  induction s with
  | nil => intro c h; simp [collapseWS] at h
  | cons c1 rest ih =>
    intro c h
    cases rest with
    | nil =>
      by_cases hs : isPySpace c1 = true
      · simp [collapseWS, hs] at h
        exact Or.inl h
      · simp [collapseWS, hs] at h
        exact Or.inr (by simp [h])
    | cons c2 rest2 =>
      rw [collapseWS] at h
      by_cases h12 : (isPySpace c1 && isPySpace c2) = true
      · rw [if_pos h12] at h
        rcases ih h with h' | h'
        · exact Or.inl h'
        · exact Or.inr (List.mem_cons_of_mem _ h')
      · rw [if_neg h12] at h
        rcases List.mem_cons.mp h with rfl | h'
        · by_cases hs : isPySpace c1 = true
          · exact Or.inl (by rw [if_pos hs])
          · refine Or.inr ?_
            rw [if_neg hs]
            exact List.mem_cons_self _ _
        · rcases ih h' with h'' | h''
          · exact Or.inl h''
          · exact Or.inr (List.mem_cons_of_mem _ h'')

/-- C5 — Sanitizer postcondition: every character of the sanitizer's output
lies in printable ASCII (0x20-0x7E) and is not a literal double quote; in
particular no control character (0x00-0x1F, 0x7F) survives.  Proved for an
arbitrary Unicode-decomposition step `nf`, so the result does not depend on
any modelling of NFKD. -/
theorem clean_text_printable_ascii_no_quote (nf : List Char → List Char)
    (t : List Char) (c : Char) (h : c ∈ cleanTextWith nf t) :
    0x20 ≤ c.toNat ∧ c.toNat ≤ 0x7e ∧ c ≠ '"' := by
  unfold cleanTextWith at h
  by_cases ht : t = []
  · rw [if_pos ht] at h
    simp at h
  · rw [if_neg ht] at h
    rcases mem_collapseWS _ h with rfl | h2
    · exact ⟨by decide, by decide, by decide⟩
    · obtain ⟨⟨ha, hb⟩, hq⟩ := mem_replaceQuotes_good (mem_pyStrip h2)
      exact ⟨ha, hb, hq⟩

/-- Witness for C5 at a concrete character of a concrete sanitizer output. -/
theorem clean_text_printable_ascii_no_quote_witness :
    0x20 ≤ 'a'.toNat ∧ 'a'.toNat ≤ 0x7e ∧ 'a' ≠ '"' :=
  clean_text_printable_ascii_no_quote (fun s => s) (str "ab") 'a' (by decide)

/- ------------------------------------------------------------------
   Helper lemmas: fragment stripping
   ------------------------------------------------------------------ -/

lemma endsNL_eq_true_mem : ∀ {s : List Char}, endsNL s = true → '\n' ∈ s := by
  intro s
  induction s with
  | nil => intro h; simp [endsNL] at h
  | cons c rest ih =>
    intro h
    cases rest with
    | nil =>
      simp [endsNL] at h
      simp [h]
    | cons c2 r2 =>
      rw [endsNL] at h
      exact List.mem_cons_of_mem _ (ih h)

lemma splitNL_no_nl : ∀ {s : List Char}, '\n' ∉ s → splitNL s = ([], s) := by
  intro s
  induction s with
  | nil => intro _; rfl
  | cons c rest ih =>
    intro h
    have hrest : '\n' ∉ rest := fun hm => h (List.mem_cons_of_mem _ hm)
    have hc : ¬ c = '\n' := fun he => h (by simp [he])
    simp [splitNL, ih hrest, hc]

lemma dropFromSlashHash_append {a : List Char} (b : List Char)
    (ha : noSlashHash a = true) :
    dropFromSlashHash (a ++ '/' :: '#' :: b) = a := by
  induction a with
  | nil => simp [dropFromSlashHash]
  | cons c1 a ih =>
    cases a with
    | nil =>
      simp only [List.cons_append, List.nil_append, dropFromSlashHash]
      rw [if_neg (by simp)]
      simp [dropFromSlashHash]
    | cons c2 a2 =>
      simp only [noSlashHash, Bool.and_eq_true, Bool.not_eq_true',
        Bool.and_eq_false_iff, beq_eq_false_iff_ne] at ha
      obtain ⟨h12, hrest⟩ := ha
      have hne : ¬ (c1 = '/' ∧ c2 = '#') := by
        rcases h12 with h | h
        · exact fun hp => h hp.1
        · exact fun hp => h hp.2
      simp only [List.cons_append, dropFromSlashHash]
      rw [if_neg hne]
      have := ih (by simpa [noSlashHash] using hrest)
      simpa [List.cons_append] using congrArg (c1 :: ·) this

/-- C6 counterexample — a fragment whose `#` is not preceded by `/` is kept
by `normalize_url`, contradicting the claim that every fragment is removed. -/
theorem fragment_without_slash_kept :
    normalizeUrl (str "https://example.com/page#section") = str "https://example.com/page#section"
    ∧ normalizeUrl (str "https://example.com/page#section") ≠ str "https://example.com/page" := by
  decide

/-- C6 (amended) — `normalize_url` removes a fragment exactly when the `#`
directly follows a `/`: for every newline-free URL whose prefix contains no
`/#`, everything from the first `/#` onward is removed; and on the concrete
slash-fragment URL the whole fragment disappears. -/
theorem fragment_stripped_only_after_slash :
    (∀ a b : List Char, '\n' ∉ a → '\n' ∉ b → noSlashHash a = true →
      stripFragment (a ++ '/' :: '#' :: b) = a)
    ∧ normalizeUrl (str "https://example.com/page/#section") = str "https://example.com/page" := by
  constructor
  · intro a b ha hb hsh
    have hnl : '\n' ∉ a ++ '/' :: '#' :: b := by
      intro hm
      rcases List.mem_append.mp hm with h | h
      · exact ha h
      · rcases List.mem_cons.mp h with h | h
        · exact absurd h (by decide)
        · rcases List.mem_cons.mp h with h | h
          · exact absurd h (by decide)
          · exact hb h
    have hend : endsNL (a ++ '/' :: '#' :: b) = false := by
      cases hE : endsNL (a ++ '/' :: '#' :: b)
      · rfl
      · exact absurd (endsNL_eq_true_mem hE) hnl
    simp [stripFragment, hend, splitNL_no_nl hnl, dropFromSlashHash_append b hsh]
  · decide

/-- Witness for C6: the general fragment-stripping law applied at a concrete
prefix and fragment. -/
theorem fragment_stripped_only_after_slash_witness :
    stripFragment (str "abc" ++ '/' :: '#' :: str "frag") = str "abc" :=
  fragment_stripped_only_after_slash.1 (str "abc") (str "frag")
    (by decide) (by decide) (by decide)

/-- C2 — the claimed idempotence of `normalize_url` fails on an upper-case
scheme: the scheme/`www` rewrites are case-sensitive and anchored while
lower-casing happens last, so the first pass only lower-cases and the second
pass then rewrites the scheme. -/
theorem normalize_url_not_idempotent_on_upper_scheme :
    normalizeUrl (normalizeUrl (str "HTTP://WWW.Example.com"))
      ≠ normalizeUrl (str "HTTP://WWW.Example.com")
    ∧ normalizeUrl (str "HTTP://WWW.Example.com") = str "http://www.example.com"
    ∧ normalizeUrl (normalizeUrl (str "HTTP://WWW.Example.com")) = str "https://example.com" := by
  decide

/-- C7 counterexample — `normalize_url(None)` returns `None` itself
(`if not url: return url`), not the empty string. -/
theorem normalize_url_none_is_not_empty_string :
    normalize_url_opt none = none ∧ normalize_url_opt none ≠ some [] := by
  decide

/-- C7 (amended) — empty input is returned unchanged (an empty key) and
`None` is returned as `None`; the function is total and side-effect free. -/
theorem normalize_url_empty_and_none :
    normalize_url_opt (some []) = some [] ∧ normalize_url_opt none = none := by
  decide

/-- C9 — on a successful exit of the external command the worker reports
`"Error"` exactly when the cleaned output is empty or contains the substring
`"Error"` anywhere; and a promotion equal to `"Error"` never appends a row
nor increments the counter in the collector. -/
theorem process_result_error_iff (stdout : List Char) :
    (process_url_success stdout = errStr ↔
      clean_text (pyStrip stdout) = []
      ∨ hasSubstr errStr (clean_text (pyStrip stdout)) = true)
    ∧ ∀ (st : CollectSt) (url : List Char),
        (collectOne st url errStr).rows = st.rows
        ∧ (collectOne st url errStr).newCount = st.newCount := by
  constructor
  · by_cases hc : clean_text (pyStrip stdout) ≠ []
        ∧ hasSubstr errStr (clean_text (pyStrip stdout)) = false
    · simp only [process_url_success]
      rw [if_pos hc]
      constructor
      · intro he
        rw [he] at hc
        exact absurd hc.2 (by decide)
      · intro hor
        rcases hor with h | h
        · exact absurd h hc.1
        · rw [h] at hc
          exact absurd hc.2 (by simp)
    · simp only [process_url_success]
      rw [if_neg hc]
      constructor
      · intro _
        rcases Decidable.not_and_iff_or_not.mp hc with h | h
        · exact Or.inl (Decidable.of_not_not h)
        · refine Or.inr ?_
          cases hB : hasSubstr errStr (clean_text (pyStrip stdout))
          · exact absurd hB h
          · rfl
      · intro _
        rfl
  · intro st url
    by_cases h1 : normalizeUrl url = []
    · simp [collectOne, h1]
    · simp [collectOne, h1]

/-- C10 — a present but completely empty output file makes the
unconditional header skip fail (`StopIteration`), aborting the export before
any URL is dispatched, while an absent file just yields the empty ledger. -/
theorem load_empty_file_aborts :
    load_processed_urls (some []) = .error ()
    ∧ load_processed_urls none = .ok []
    ∧ ∀ (urls : List (List Char)) (out : List Char → List Char),
        export_urls_to_csv (some []) urls out = .error () := by
  exact ⟨rfl, rfl, fun _ _ => rfl⟩

/-- C4 counterexample — a Failed outcome whose URL normalizes to the empty
key does not mark anything in the ledger: the collector skips it before the
`"Error"` branch, so the claimed ledger update does not happen. -/
theorem failed_outcome_empty_key_not_marked :
    collectOne ⟨[], [], 0⟩ (str " ") errStr = ⟨[], [], 0⟩
    ∧ normalizeUrl (str " ") = [] := by
  decide

/-- C4 (amended) — outcome policy of the collector for every completed
outcome: if the URL's key is empty the outcome is discarded entirely (no
ledger mark, no row); otherwise a `"Error"` promotion marks the key and
writes no row, a `"Reject:"`-prefixed promotion marks the key and writes no
row, and any other promotion appends exactly one row
`(promotion, clean_text url)` and marks the key — so only such Success
outcomes ever extend the rows or the counter. -/
theorem collect_policy_nonempty_key (st : CollectSt) (url promo : List Char) :
    (normalizeUrl url = [] → collectOne st url promo = st)
    ∧ (normalizeUrl url ≠ [] → promo = errStr →
        collectOne st url promo = ⟨normalizeUrl url :: st.ledger, st.rows, st.newCount⟩)
    ∧ (normalizeUrl url ≠ [] → promo ≠ errStr → rejStr.isPrefixOf promo = true →
        collectOne st url promo = ⟨normalizeUrl url :: st.ledger, st.rows, st.newCount⟩)
    ∧ (normalizeUrl url ≠ [] → promo ≠ errStr → rejStr.isPrefixOf promo = false →
        collectOne st url promo =
          ⟨normalizeUrl url :: st.ledger, st.rows ++ [[promo, clean_text url]],
            st.newCount + 1⟩) := by
  refine ⟨fun h1 => ?_, fun h1 h2 => ?_, fun h1 h2 h3 => ?_, fun h1 h2 h3 => ?_⟩ <;>
    simp [collectOne, h1, *]

/-- Witness for C4 at a concrete Success outcome. -/
theorem collect_policy_nonempty_key_witness :
    collectOne ⟨[], [], 0⟩ (str "https://x.com") (str "P")
      = ⟨normalizeUrl (str "https://x.com") :: ([] : List (List Char)),
          ([] : FileRecs) ++ [[str "P", clean_text (str "https://x.com")]], 0 + 1⟩ :=
  (collect_policy_nonempty_key ⟨[], [], 0⟩ (str "https://x.com") (str "P")).2.2.2
    (by decide) (by decide) (by decide)

/-- C3 counterexample — a URL whose normalized key is empty IS submitted to
the worker pool: the dispatch filter checks only ledger membership, and the
emptiness check happens only after the outcome returns.  With the ledger
holding the keys of A and B and input batch (A, B, " "), the blank URL —
whose key is empty — is dispatched. -/
theorem empty_key_url_is_dispatched :
    dispatchedOf (export_urls_to_csv
        (some [headerRow, [str "p", str "https://a.com"], [str "p", str "https://b.com"]])
        [str "https://a.com", str "https://b.com", str " "]
        (fun _ => str "Promo"))
      = [str " "]
    ∧ normalizeUrl (str " ") = [] := by
  decide

/-- C3 (amended) — a URL from the batch is submitted iff its normalized key
is not already in the loaded ledger, with no emptiness condition at dispatch
time; empty-key outcomes are discarded at collection with no row and no
ledger change, and on the concrete batch (A, B, C) against a ledger holding
A and B exactly C is dispatched. -/
theorem dispatch_filter_ledger_only
    (file : Option FileRecs) (urls : List (List Char)) (out : List Char → List Char)
    (ledger : List (List Char)) (r : ExportRes)
    (hl : load_processed_urls file = .ok ledger)
    (h : export_urls_to_csv file urls out = .ok r) :
    (∀ u, u ∈ r.dispatched ↔ u ∈ urls ∧ normalizeUrl u ∉ ledger)
    ∧ (∀ (st : CollectSt) (u p : List Char), normalizeUrl u = [] → collectOne st u p = st)
    ∧ dispatchedOf (export_urls_to_csv
        (some [headerRow, [str "p", str "https://a.com"], [str "p", str "https://b.com"]])
        [str "https://a.com", str "https://b.com", str "https://c.com"]
        (fun _ => str "Promo"))
      = [str "https://c.com"] := by
  rw [export_urls_to_csv, hl] at h
  simp only [Except.map, Except.ok.injEq] at h
  subst h
  refine ⟨?_, ?_, ?_⟩
  · intro u
    simp [dispatchList, List.mem_filter]
  · intro st u p h1
    simp [collectOne, h1]
  · decide

/-- Witness for C3: the dispatch criterion instantiated at the concrete
batch (A, B, C) against a ledger holding the keys of A and B. -/
theorem dispatch_filter_ledger_only_witness :
    str "https://c.com" ∈ [str "https://c.com"] ↔
      str "https://c.com"
          ∈ [str "https://a.com", str "https://b.com", str "https://c.com"]
        ∧ normalizeUrl (str "https://c.com") ∉ [str "https://a.com", str "https://b.com"] :=
  (dispatch_filter_ledger_only
    (some [headerRow, [str "p", str "https://a.com"], [str "p", str "https://b.com"]])
    [str "https://a.com", str "https://b.com", str "https://c.com"]
    (fun _ => str "Promo")
    [str "https://a.com", str "https://b.com"]
    ⟨[str "https://c.com"],
      [str "https://c.com", str "https://a.com", str "https://b.com"],
      [[str "Promo", str "https://c.com"]], 1,
      some [headerRow, [str "p", str "https://a.com"], [str "p", str "https://b.com"],
        [str "Promo", str "https://c.com"]]⟩
    rfl (by decide)).1 (str "https://c.com")

/- ------------------------------------------------------------------
   Helper lemmas: the worker pool
   ------------------------------------------------------------------ -/

lemma poolStep_workers_length {s s2 : PoolState} (h : PoolStep s s2) :
    s2.workers.length = s.workers.length := by
  cases h <;> simp [List.length_set]

lemma poolReach_workers_length {n : Nat} {tasks : List Nat} {s : PoolState}
    (h : poolReach n tasks s) : s.workers.length = n := by
  unfold poolReach at h
  induction h with
  | refl => simp [initState]
  | tail _ hstep ih => rw [poolStep_workers_length hstep]; exact ih

/-- C8 — per-host concurrency bound: in every state reachable from the
initial pool state there is exactly one worker slot per host, each host
processes at most one task at a time, and the number of in-flight tasks
never exceeds the number of hosts. -/
theorem pool_in_flight_bounded (n : Nat) (tasks : List Nat) (s : PoolState)
    (h : poolReach n tasks s) :
    s.workers.length = n ∧ inFlight s ≤ n ∧ ∀ i, inFlightAt s i ≤ 1 := by
  have hlen := poolReach_workers_length h
  refine ⟨hlen, ?_, ?_⟩
  · have hle := List.length_filterMap_le (id : Option Nat → Option Nat) s.workers
    unfold inFlight
    omega
  · intro i
    unfold inFlightAt
    split <;> simp

/-- Witness for C8: the pool of 2 hosts with 5 submitted tasks, at the
initial instant. -/
theorem pool_in_flight_bounded_witness :
    inFlight (initState 2 [0, 1, 2, 3, 4]) ≤ 2 :=
  (pool_in_flight_bounded 2 [0, 1, 2, 3, 4] (initState 2 [0, 1, 2, 3, 4])
    Relation.ReflTransGen.refl).2.1

/- ------------------------------------------------------------------
   Helper lemmas: the collection fold and file reload
   ------------------------------------------------------------------ -/

lemma collectOne_ledger_mem {st : CollectSt} {x : List Char} (u p : List Char)
    (hx : x ∈ st.ledger) : x ∈ (collectOne st u p).ledger := by
  unfold collectOne
  by_cases h1 : normalizeUrl u = []
  · simpa [h1]
  · by_cases h2 : p = errStr
    · simp [h1, h2, hx]
    · by_cases h3 : rejStr.isPrefixOf p
      · simp [h1, h2, h3, hx]
      · simp [h1, h2, h3, hx]

lemma collectOne_rows_mem {st : CollectSt} {row : List (List Char)} (u p : List Char)
    (hr : row ∈ st.rows) : row ∈ (collectOne st u p).rows := by
  unfold collectOne
  by_cases h1 : normalizeUrl u = []
  · simpa [h1]
  · by_cases h2 : p = errStr
    · simp [h1, h2, hr]
    · by_cases h3 : rejStr.isPrefixOf p
      · simp [h1, h2, h3, hr]
      · simp [h1, h2, h3, hr]

lemma foldCollect_rows_mem (out : List Char → List Char) (d : List (List Char)) :
    ∀ (st : CollectSt) {row : List (List Char)}, row ∈ st.rows →
      row ∈ (d.foldl (fun s v => collectOne s v (out v)) st).rows := by
  induction d with
  | nil => intro st row hr; exact hr
  | cons v d ih => intro st row hr; exact ih _ (collectOne_rows_mem v (out v) hr)

lemma foldCollect_success_row (out : List Char → List Char) (d : List (List Char)) :
    ∀ (st : CollectSt) {u : List Char}, u ∈ d →
      out u ≠ errStr → rejStr.isPrefixOf (out u) = false → normalizeUrl u ≠ [] →
      [out u, clean_text u] ∈ (d.foldl (fun s v => collectOne s v (out v)) st).rows := by
  induction d with
  | nil => intro st u hu; cases hu
  | cons v d ih =>
    intro st u hu hE hR hN
    rcases List.mem_cons.mp hu with rfl | hu2
    · have hrow : [out u, clean_text u] ∈ (collectOne st u (out u)).rows := by
        simp [collectOne, hN, hE, hR]
      exact foldCollect_rows_mem out d _ hrow
    · exact ih _ hu2 hE hR hN

lemma loadAfter (file : Option FileRecs) (ledger : List (List Char)) (extra : FileRecs)
    (hl : load_processed_urls file = .ok ledger) :
    load_processed_urls (some (baseRecs file ++ extra))
      = .ok (ledger ++ extra.filterMap rowKey) := by
  cases file with
  | none =>
    simp only [load_processed_urls, Except.ok.injEq] at hl
    subst hl
    simp [baseRecs, load_processed_urls]
  | some recs =>
    cases recs with
    | nil => exact absurd hl (by simp [load_processed_urls])
    | cons h0 t =>
      simp only [load_processed_urls, Except.ok.injEq] at hl
      subst hl
      simp [baseRecs, load_processed_urls, List.filterMap_append]

lemma export_eq (file : Option FileRecs) (urls : List (List Char))
    (out : List Char → List Char) (processed : List (List Char))
    (h : load_processed_urls file = .ok processed) :
    export_urls_to_csv file urls out = .ok
      ⟨dispatchList processed urls,
       (collectAll out processed (dispatchList processed urls)).ledger,
       (collectAll out processed (dispatchList processed urls)).rows,
       (collectAll out processed (dispatchList processed urls)).newCount,
       some (baseRecs file
         ++ (collectAll out processed (dispatchList processed urls)).rows.map
              (List.map csvStoredField))⟩ := by
  rw [export_urls_to_csv, h]
  rfl

/-- C1 counterexample — resumability fails for a successful URL whose
stored URL column has a different key.  Two independent failure modes: for a
URL containing `"`, the column holds `clean_text(u)` with `"` rewritten to
`'`; for a URL containing a backslash, sanitization is the identity but the
writer escapes the backslash (`escapechar='\\'`, `doublequote=False`) and
the default-dialect reader keeps both characters, so the rebuilt ledger
holds the double-backslash key.  In both cases the second run re-dispatches
the URL and appends one more row instead of zero. -/
theorem export_second_run_redispatches_quoted_url :
    newCountOf (export_urls_to_csv none [str "https://example.com/a\"b"]
      (fun _ => str "Promo")) = 1
    ∧ dispatchedOf (export_urls_to_csv none [str "https://example.com/a\"b"]
        (fun _ => str "Promo")) = [str "https://example.com/a\"b"]
    ∧ dispatchedOf (export_urls_to_csv
        (fileAfterOf (export_urls_to_csv none [str "https://example.com/a\"b"]
          (fun _ => str "Promo")))
        [str "https://example.com/a\"b"] (fun _ => str "Promo"))
      = [str "https://example.com/a\"b"]
    ∧ newCountOf (export_urls_to_csv
        (fileAfterOf (export_urls_to_csv none [str "https://example.com/a\"b"]
          (fun _ => str "Promo")))
        [str "https://example.com/a\"b"] (fun _ => str "Promo")) = 1
    ∧ clean_text (str "https://example.com/a\\b") = str "https://example.com/a\\b"
    ∧ newCountOf (export_urls_to_csv none [str "https://example.com/a\\b"]
        (fun _ => str "Promo")) = 1
    ∧ dispatchedOf (export_urls_to_csv
        (fileAfterOf (export_urls_to_csv none [str "https://example.com/a\\b"]
          (fun _ => str "Promo")))
        [str "https://example.com/a\\b"] (fun _ => str "Promo"))
      = [str "https://example.com/a\\b"]
    ∧ newCountOf (export_urls_to_csv
        (fileAfterOf (export_urls_to_csv none [str "https://example.com/a\\b"]
          (fun _ => str "Promo")))
        [str "https://example.com/a\\b"] (fun _ => str "Promo")) = 1 := by
  decide

/-- C1 (amended) — resumability up to sanitization and CSV escaping: if
every dispatched URL of the first run reaches Success, the ledger rebuilt
from the output file contains `normalize_url(csvStoredField(clean_text(u)))`
for every such URL (the URL column is stored with backslashes doubled by
the writer's escaping and read back verbatim), and whenever that stored key
equals `normalize_url(u)` for every dispatched URL the second run with the
same file and batch dispatches nothing and appends zero new rows. -/
theorem export_resumable_up_to_sanitization
    (file : Option FileRecs) (urls : List (List Char)) (out : List Char → List Char)
    (ledger l2 : List (List Char)) (r1 r2 : ExportRes)
    (hl : load_processed_urls file = .ok ledger)
    (h1 : export_urls_to_csv file urls out = .ok r1)
    (hS : ∀ u ∈ r1.dispatched, out u ≠ errStr ∧ rejStr.isPrefixOf (out u) = false
      ∧ normalizeUrl u ≠ [])
    (hld2 : load_processed_urls r1.fileAfter = .ok l2)
    (hpres : ∀ u ∈ r1.dispatched,
      normalizeUrl (csvStoredField (clean_text u)) = normalizeUrl u)
    (h3 : export_urls_to_csv r1.fileAfter urls out = .ok r2) :
    (∀ u ∈ r1.dispatched, normalizeUrl (csvStoredField (clean_text u)) ∈ l2)
    ∧ r2.dispatched = [] ∧ r2.newCount = 0 := by
  have hr1 : r1 = ⟨dispatchList ledger urls,
      (collectAll out ledger (dispatchList ledger urls)).ledger,
      (collectAll out ledger (dispatchList ledger urls)).rows,
      (collectAll out ledger (dispatchList ledger urls)).newCount,
      some (baseRecs file
        ++ (collectAll out ledger (dispatchList ledger urls)).rows.map
             (List.map csvStoredField))⟩ := by
    have := h1.symm.trans (export_eq file urls out ledger hl)
    simpa using this
  subst hr1
  have hld2b : load_processed_urls
      (some (baseRecs file
        ++ (collectAll out ledger (dispatchList ledger urls)).rows.map
             (List.map csvStoredField)))
      = .ok l2 := hld2
  have hkeys := loadAfter file ledger
    ((collectAll out ledger (dispatchList ledger urls)).rows.map
      (List.map csvStoredField)) hl
  have hl2 : l2 = ledger
      ++ ((collectAll out ledger (dispatchList ledger urls)).rows.map
            (List.map csvStoredField)).filterMap rowKey := by
    have := hld2b.symm.trans hkeys
    simpa using this
  subst hl2
  have part1 : ∀ u ∈ dispatchList ledger urls,
      normalizeUrl (csvStoredField (clean_text u)) ∈ ledger
        ++ ((collectAll out ledger (dispatchList ledger urls)).rows.map
              (List.map csvStoredField)).filterMap rowKey := by
    intro u hu
    obtain ⟨hE, hR, hN⟩ := hS u hu
    have hrow : [out u, clean_text u]
        ∈ (collectAll out ledger (dispatchList ledger urls)).rows :=
      foldCollect_success_row out (dispatchList ledger urls) ⟨ledger, [], 0⟩ hu hE hR hN
    have hmapped := List.mem_map_of_mem (List.map csvStoredField) hrow
    exact List.mem_append.mpr
      (Or.inr (List.mem_filterMap.mpr ⟨[out u, clean_text u].map csvStoredField,
        hmapped, rfl⟩))
  have hnil : dispatchList
      (ledger ++ ((collectAll out ledger (dispatchList ledger urls)).rows.map
        (List.map csvStoredField)).filterMap rowKey)
      urls = [] := by
    unfold dispatchList
    rw [List.filter_eq_nil_iff]
    intro u hu
    simp only [decide_eq_true_eq, Decidable.not_not]
    by_cases hmem : u ∈ dispatchList ledger urls
    · rw [← hpres u hmem]
      exact part1 u hmem
    · have hnp : ¬ (decide (normalizeUrl u ∉ ledger) = true) :=
        fun hp => hmem (List.mem_filter.mpr ⟨hu, hp⟩)
      simp only [decide_eq_true_eq, Decidable.not_not] at hnp
      exact List.mem_append.mpr (Or.inl hnp)
  have h3eq := h3.symm.trans (export_eq _ urls out _ hld2)
  have hr2 := Except.ok.inj h3eq
  refine ⟨part1, ?_, ?_⟩
  · rw [hr2]
    exact hnil
  · rw [hr2]
    show (collectAll out
      (ledger ++ ((collectAll out ledger (dispatchList ledger urls)).rows.map
        (List.map csvStoredField)).filterMap rowKey)
      (dispatchList
        (ledger ++ ((collectAll out ledger (dispatchList ledger urls)).rows.map
          (List.map csvStoredField)).filterMap rowKey)
        urls)).newCount = 0
    rw [hnil]
    rfl

/-- Witness for C1 at a one-URL batch (no quotes, no backslashes) whose
sanitization and CSV storage are the identity: the second run dispatches
nothing and appends no row. -/
theorem export_resumable_up_to_sanitization_witness :
    (ExportRes.dispatched ⟨[], [str "https://x.com"], [], 0,
        some [headerRow, [str "Promo", str "https://x.com"]]⟩ = [])
    ∧ (ExportRes.newCount ⟨[], [str "https://x.com"], [], 0,
        some [headerRow, [str "Promo", str "https://x.com"]]⟩ = 0) :=
  (export_resumable_up_to_sanitization none [str "https://x.com"]
    (fun _ => str "Promo") [] [str "https://x.com"]
    ⟨[str "https://x.com"], [str "https://x.com"],
      [[str "Promo", str "https://x.com"]], 1,
      some [headerRow, [str "Promo", str "https://x.com"]]⟩
    ⟨[], [str "https://x.com"], [], 0,
      some [headerRow, [str "Promo", str "https://x.com"]]⟩
    rfl (by decide) (by decide) (by decide) (by decide) (by decide)).2

